import Mathlib

set_option linter.dupNamespace false

/-!
# dnsresolver: cache store and resolver selection

A shallow embedding of `cache.go` (`getCacheRecords`, `saveCacheRecords`,
`addToCache`) and of the selection loop of `query.go` (`handleDNSServers`),
followed by the properties of the cache store and of the resolver engine.

Conventions of the embedding.

* A Go `time.Time` is the integer number of nanoseconds that separate it from
  the zero `Time` (January 1, year 1, UTC), so the zero value of the type is `0`.
  A `time.Duration` is an `int64` count of nanoseconds.
* Every call of `time.Now()` is an input of the function that makes it: the
  clock readings are passed in, one per call, in the order of the calls.
* A `float64` is represented by the rational number it denotes; the arithmetic
  of `Duration.Seconds` is IEEE 754 round-to-nearest-even with a 53 bit
  significand.
* The file `cache.json` is represented by what `os.ReadFile` followed by
  `json.Unmarshal` make of it; `json.MarshalIndent` followed by `os.WriteFile`
  is represented by the document that is written.
-/

namespace DNSResolver

/-! ## Time -/

/-- Go `time.Time`, in nanoseconds since the zero `Time`. -/
abbrev Time := Int

/-- Go `time.Duration`, an `int64` number of nanoseconds. -/
abbrev Duration := Int

/-- Go `uint32`. -/
abbrev Uint32 := Fin 4294967296

/-- Go `time.Second`. -/
def Second : Duration := 1000000000

/-- The smallest `time.Duration`, `-1 << 63`. -/
def minDuration : Duration := -9223372036854775808

/-- The largest `time.Duration`, `1<<63 - 1`. -/
def maxDuration : Duration := 9223372036854775807

/-- Two's complement wrap-around of an integer into `int64`. -/
def int64 (x : Int) : Int := (x + 9223372036854775808) % 18446744073709551616 - 9223372036854775808

/-- The expression `time.Duration(ttl) * time.Second` for a `uint32` value `ttl`. -/
def Duration.ofTTL (ttl : Uint32) : Duration := int64 (int64 (ttl.val : Int) * Second)

/-- Go `Time.Add`. -/
def Time.Add (t : Time) (d : Duration) : Time := t + d

/-- Go `Time.Sub`: the difference `t - u`, saturated to the range of `time.Duration`. -/
def Time.Sub (t u : Time) : Duration :=
  if t - u < minDuration then minDuration
  else if maxDuration < t - u then maxDuration
  else t - u

/-! ## Record model -/

/-- Modelled from the spec: the declaration of `DNSRecord` is not part of the sources at hand;
the fields are those of the Resource Record of the data model (`name`, `type`, `value`, `ttl`,
`last_query`), as `saveCacheRecords`, `getCacheRecords` and `addToCache` use them. The field
`Type` of the source is written `Typ`. -/
structure DNSRecord where
  Name : String
  Typ : String
  Value : String
  TTL : Uint32
  LastQuery : Time
deriving DecidableEq

/-- Modelled from the spec: the declaration of `CacheRecord` is not part of the sources at hand;
the fields are those of a persisted cache entry (`dnsrecord`, `expiry`, `timestamp`,
`last_query`), as the default content of `cache.json` in `initializeJSONFiles` lists them.
`Timestamp` is the `inserted_at` and `Expiry` the `expires_at` of the data model. -/
structure CacheRecord where
  DNSRecord : DNSRecord
  Expiry : Time
  Timestamp : Time
  LastQuery : Time
deriving DecidableEq

/-- Modelled from the spec: the declaration of `Records` is not part of the sources at hand;
it is the document `\x7b"records": [...]\x7d` that `getCacheRecords` decodes and
`saveCacheRecords` encodes. -/
structure Records where
  Records : List DNSRecord
deriving DecidableEq

/-- Modelled from the spec: the declaration of the settings type is not part of the sources at
hand; the fields are the options of the configuration document written by
`initializeJSONFiles`. -/
structure DNSServerSettings where
  FallbackServerIP : String
  FallbackServerPort : String
  Timeout : Nat
  DNSPort : String
  CacheRecords : Bool
  AutoBuildPTRFromA : Bool
deriving DecidableEq

/-- The header of a resource record of the DNS library: what `Header()` returns. -/
structure RR_Header where
  Name : String
  Rrtype : Nat
  Ttl : Uint32
deriving DecidableEq

/-- The dynamic type of a `dns.RR`, with the fields that the type switch of `addToCache`
reads. Addresses are carried by their text form (`r.A.String()`, `r.AAAA.String()`), and a
record of any other type by its presentation form (`String()`). -/
inductive RData where
  | A (A : String)
  | AAAA (AAAA : String)
  | CNAME (Target : String)
  | MX (Preference : Nat) (Mx : String)
  | NS (Ns : String)
  | SOA (Ns Mbox : String) (Serial Refresh Retry Expire Minttl : Nat)
  | TXT (Txt : List String)
  | other (String : String)
deriving DecidableEq

/-- A resource record `dns.RR`. -/
structure RR where
  Hdr : RR_Header
  Data : RData
deriving DecidableEq

/-- The package-level state that `addToCache` reads: the global `dnsServerSettings` and the
table `dns.TypeToString` of the DNS library. -/
structure Env where
  dnsServerSettings : DNSServerSettings
  TypeToString : Nat → String

/-! ## Floating point -/

/-- The integer nearest to `y`, a tie going to the even neighbour. -/
def roundHalfEven (y : ℚ) : ℤ :=
  if 2 * (y - ⌊y⌋) < 1 then ⌊y⌋
  else if 1 < 2 * (y - ⌊y⌋) then ⌊y⌋ + 1
  else if ⌊y⌋ % 2 = 0 then ⌊y⌋ else ⌊y⌋ + 1

/-- The `float64` nearest to a positive rational: with `2 ^ k ≤ x < 2 ^ (k + 1)` the result is
the multiple of `2 ^ (k - 52)` nearest to `x`, ties to even. The magnitudes met in
`Duration.Seconds` lie between `1e-9` and `2 ^ 34`, far inside the normal range. -/
def roundFloat64Pos (x : ℚ) : ℚ :=
  (roundHalfEven (x / 2 ^ (Int.log 2 x - 52)) : ℚ) * 2 ^ (Int.log 2 x - 52)

/-- Rounding of a rational to `float64`. -/
def roundFloat64 (x : ℚ) : ℚ :=
  if x = 0 then 0 else if 0 < x then roundFloat64Pos x else -roundFloat64Pos (-x)

/-- Go `Duration.Seconds`:
`sec := d / Second; nsec := d % Second; return float64(sec) + float64(nsec)/1e9`,
where `/` and `%` on integers truncate toward zero. -/
def Duration.Seconds (d : Duration) : ℚ :=
  roundFloat64 (roundFloat64 (Int.tdiv d Second : ℚ)
    + roundFloat64 (roundFloat64 (Int.tmod d Second : ℚ) / 1000000000))

/-- The conversion `uint32(f)` of a `float64`: the fraction is discarded. For a value outside
the range of `uint32` the language leaves the result to the implementation; the model follows
the compiler on 64 bit targets, which converts to `int64` and keeps the low 32 bits. -/
def uint32OfFloat64 (f : ℚ) : Uint32 :=
  Fin.ofNat ((if 0 ≤ f then ⌊f⌋ else ⌈f⌉) % 4294967296).toNat

/-! ## cache.go -/

/-- What `os.ReadFile("cache.json")` followed by `json.Unmarshal` yield. -/
inductive CacheFile where
  | unreadable (err : String)
  | malformed (err : String)
  | parsed (records : Records)
deriving DecidableEq

/-- The loop of `getCacheRecords`; `i` is the index of the first record of the list and
`now i` the reading of `time.Now()` in iteration `i`. -/
def getCacheRecords.loop (now : Nat → Time) : Nat → List DNSRecord → List CacheRecord
  | _, [] => []
  | i, record :: rest =>
    { DNSRecord := record
      Timestamp := now i
      Expiry := Time.Add record.LastQuery (Duration.ofTTL record.TTL)
      LastQuery := 0 } :: getCacheRecords.loop now (i + 1) rest

/-- Source `getCacheRecords`: an error of `os.ReadFile` or of `json.Unmarshal` is returned
(with a nil slice); otherwise one cache record per persisted record. -/
def getCacheRecords (file : CacheFile) (now : Nat → Time) : Except String (List CacheRecord) :=
  match file with
  | .unreadable err => .error err
  | .malformed err => .error err
  | .parsed records => .ok (getCacheRecords.loop now 0 records.Records)

/-- Source `saveCacheRecords`: the document handed to `json.MarshalIndent` and written to
`cache.json`. -/
def saveCacheRecords (cacheRecords : List CacheRecord) : Records :=
  { Records := cacheRecords.map fun cacheRecord =>
      { cacheRecord.DNSRecord with
        TTL := uint32OfFloat64 (Duration.Seconds (Time.Sub cacheRecord.Expiry cacheRecord.Timestamp))
        LastQuery := cacheRecord.LastQuery } }

/-- The type switch of `addToCache` that computes `value`. -/
def recordValue : RData → String
  | .A a => a
  | .AAAA a => a
  | .CNAME target => target
  | .MX preference mx => toString preference ++ " " ++ mx
  | .NS ns => ns
  | .SOA ns mbox serial refresh retry expire minttl =>
    ns ++ " " ++ mbox ++ " " ++ toString serial ++ " " ++ toString refresh ++ " "
      ++ toString retry ++ " " ++ toString expire ++ " " ++ toString minttl
  | .TXT txt => " ".intercalate txt
  | .other s => s

/-- The three readings of `time.Now()` that one call of `addToCache` takes, in the order of
the calls: for `Expiry`, for `Timestamp`, and for `LastQuery`. -/
structure NowReadings where
  forExpiry : Time
  forTimestamp : Time
  forLastQuery : Time
deriving DecidableEq

/-- The readings of a clock that does not advance during the call. -/
def NowReadings.at (now : Time) : NowReadings := ⟨now, now, now⟩

/-- The search loop of `addToCache`: the index of the first record of the list with the name,
type and value of `cacheRecord`, counted from `i`, and `-1` when there is none. -/
def addToCache.find (cacheRecord : CacheRecord) : Nat → List CacheRecord → Int
  | _, [] => -1
  | i, existingRecord :: rest =>
    if existingRecord.DNSRecord.Name = cacheRecord.DNSRecord.Name ∧
        existingRecord.DNSRecord.Typ = cacheRecord.DNSRecord.Typ ∧
        existingRecord.DNSRecord.Value = cacheRecord.DNSRecord.Value then (i : Int)
    else addToCache.find cacheRecord (i + 1) rest

/-- The record that `addToCache` builds from the answer before it looks at the cache. -/
def addToCache.candidate (env : Env) (now : NowReadings) (record : RR) : CacheRecord :=
  { DNSRecord :=
      { Name := record.Hdr.Name
        Typ := env.TypeToString record.Hdr.Rrtype
        Value := recordValue record.Data
        TTL := record.Hdr.Ttl
        LastQuery := 0 }
    Expiry := Time.Add now.forExpiry (Duration.ofTTL record.Hdr.Ttl)
    Timestamp := now.forTimestamp
    LastQuery := 0 }

/-- Source `addToCache`. The result is the returned collection together with the document that
`saveCacheRecords` wrote during the call, if it was called. -/
def addToCache (env : Env) (now : NowReadings) (cacheRecords : List CacheRecord) (record : RR) :
    List CacheRecord × Option Records :=
  if !env.dnsServerSettings.CacheRecords then (cacheRecords, none)
  else
    let cacheRecord := addToCache.candidate env now record
    let recordIndex := addToCache.find cacheRecord 0 cacheRecords
    let cacheRecords :=
      if recordIndex ≠ -1 then
        match cacheRecords[recordIndex.toNat]? with
        | some existing =>
          cacheRecords.set recordIndex.toNat
            { existing with
              DNSRecord := { existing.DNSRecord with TTL := cacheRecord.DNSRecord.TTL }
              Expiry := cacheRecord.Expiry
              LastQuery := now.forLastQuery }
        | none => cacheRecords
      else cacheRecords ++ [{ cacheRecord with LastQuery := now.forLastQuery }]
    (cacheRecords, some (saveCacheRecords cacheRecords))

/-- A sequence of calls `cacheRecords = addToCache(cacheRecords, record)`, each with its own
clock readings: the final collection and the documents written to `cache.json`, in order. -/
def upsertAll (env : Env) : List (NowReadings × RR) → List CacheRecord →
    List CacheRecord × List Records
  | [], cacheRecords => (cacheRecords, [])
  | (now, record) :: calls, cacheRecords =>
    let step := addToCache env now cacheRecords record
    let rest := upsertAll env calls step.1
    (rest.1, step.2.toList ++ rest.2)

/-! ## query.go -/

/-- The header of a `dns.Msg`. -/
structure MsgHdr where
  Authoritative : Bool
deriving DecidableEq

/-- A response `dns.Msg`: its header and its answer section. -/
structure Msg where
  MsgHdr : MsgHdr
  Answer : List RR
deriving DecidableEq

/-- Source `queryAllDNSServers`, seen from the reader of the channel: `completions` lists what
`queryAuthoritative` returned for each upstream server, in the order in which the goroutines
finished (`none` for a server that failed); only the responses are sent on the channel, which
is closed after the last of them. -/
def queryAllDNSServers (completions : List (Option Msg)) : List Msg :=
  completions.filterMap id

/-- The calls that `handleDNSServers` makes. -/
inductive Call where
  | processAuthoritativeAnswer (answer : Msg)
  | handleFallbackServer
deriving DecidableEq

/-- The loop `for answer := range answers` of `handleDNSServers`: the final value of `found`
and the calls made. -/
def handleDNSServers.loop : List Msg → Bool × List Call
  | [] => (false, [])
  | answer :: rest =>
    if answer.MsgHdr.Authoritative then (true, [Call.processAuthoritativeAnswer answer])
    else handleDNSServers.loop rest

/-- Source `handleDNSServers`, as the sequence of calls it makes; `completions` is what the
upstream servers returned, in the order of completion. -/
def handleDNSServers (completions : List (Option Msg)) : List Call :=
  let answers := queryAllDNSServers completions
  let scan := handleDNSServers.loop answers
  if !scan.1 then scan.2 ++ [Call.handleFallbackServer] else scan.2

/-! ## Specification vocabulary -/

/-- The identity key of a cache entry: `(name, type, value)`. -/
def CacheRecord.key (r : CacheRecord) : String × String × String :=
  (r.DNSRecord.Name, r.DNSRecord.Typ, r.DNSRecord.Value)

/-- The identity key of the record handed to `addToCache`. -/
def upsertKey (env : Env) (record : RR) : String × String × String :=
  (record.Hdr.Name, env.TypeToString record.Hdr.Rrtype, recordValue record.Data)

/-- The tuple `(name, type, value, ttl)` of a cache entry. -/
def CacheRecord.tuple (r : CacheRecord) : String × String × String × Uint32 :=
  (r.DNSRecord.Name, r.DNSRecord.Typ, r.DNSRecord.Value, r.DNSRecord.TTL)

/-- Spec wording of the ttl that `Save` writes: `round(expires_at - inserted_at)` seconds, the
whole second nearest to a duration given in nanoseconds (a half goes up). -/
def nearestSecond (d : Duration) : Int := (d + 500000000) / 1000000000

/-- No two entries at different positions have the same `(name, type, value)`. -/
def KeyUnique (records : List CacheRecord) : Prop :=
  ∀ (i j : Nat) (a b : CacheRecord),
    records[i]? = some a → records[j]? = some b → i ≠ j → a.key ≠ b.key

/-- The entry that `addToCache` appends for a key that is not in the collection. -/
def appended (env : Env) (now : NowReadings) (record : RR) : CacheRecord :=
  { DNSRecord :=
      { Name := record.Hdr.Name
        Typ := env.TypeToString record.Hdr.Rrtype
        Value := recordValue record.Data
        TTL := record.Hdr.Ttl
        LastQuery := 0 }
    Expiry := now.forExpiry + (record.Hdr.Ttl.val : Int) * 1000000000
    Timestamp := now.forTimestamp
    LastQuery := now.forLastQuery }

/-- The entry that `addToCache` leaves in the place of `existing` when it refreshes it. -/
def refreshed (now : NowReadings) (record : RR) (existing : CacheRecord) : CacheRecord :=
  { DNSRecord :=
      { Name := existing.DNSRecord.Name
        Typ := existing.DNSRecord.Typ
        Value := existing.DNSRecord.Value
        TTL := record.Hdr.Ttl
        LastQuery := existing.DNSRecord.LastQuery }
    Expiry := now.forExpiry + (record.Hdr.Ttl.val : Int) * 1000000000
    Timestamp := existing.Timestamp
    LastQuery := now.forLastQuery }

/-! ## Concrete inputs -/

/-- The clock reading `2026-01-01T00:00:00Z`, in nanoseconds since the zero time. -/
def newYear : Time := 63902822400000000000

/-- Settings with caching enabled and the type table restricted to `A` and `AAAA`. -/
def exampleEnv : Env :=
  { dnsServerSettings :=
      { FallbackServerIP := "192.168.178.21", FallbackServerPort := "53", Timeout := 2,
        DNSPort := "53", CacheRecords := true, AutoBuildPTRFromA := true }
    TypeToString := fun t => if t = 1 then "A" else if t = 28 then "AAAA" else "" }

/-- The settings of `exampleEnv` with `cache_records` switched off. -/
def disabledEnv : Env :=
  { exampleEnv with
    dnsServerSettings := { exampleEnv.dnsServerSettings with CacheRecords := false } }

/-- An address record for `example.com.` with the given ttl. -/
def exampleRR (ttl : Uint32) : RR :=
  { Hdr := { Name := "example.com.", Rrtype := 1, Ttl := ttl }, Data := RData.A "93.184.216.34" }

/-- A second address of the same name and type. -/
def otherRR (ttl : Uint32) : RR :=
  { Hdr := { Name := "example.com.", Rrtype := 1, Ttl := ttl }, Data := RData.A "93.184.216.35" }

/-- The entry that an upsert of `exampleRR 3600` at `newYear` leaves in an empty cache. -/
def exampleEntry : CacheRecord :=
  { DNSRecord :=
      { Name := "example.com.", Typ := "A", Value := "93.184.216.34", TTL := 3600, LastQuery := 0 }
    Expiry := newYear + 3600000000000
    Timestamp := newYear
    LastQuery := newYear }

/-- The entry left by an upsert of `exampleRR 1` at `newYear` followed by an upsert of the same
record 0.6 s later: it expires 1.6 s after its insertion. -/
def fractionalEntry : CacheRecord :=
  { DNSRecord :=
      { Name := "example.com.", Typ := "A", Value := "93.184.216.34", TTL := 1, LastQuery := 0 }
    Expiry := newYear + 1600000000
    Timestamp := newYear
    LastQuery := newYear + 600000000 }

/-- The entry left by an upsert of `exampleRR 300` at `newYear` followed by an upsert of the
same record 100 s later. -/
def refreshedEntry : CacheRecord :=
  { DNSRecord :=
      { Name := "example.com.", Typ := "A", Value := "93.184.216.34", TTL := 300, LastQuery := 0 }
    Expiry := newYear + 400000000000
    Timestamp := newYear
    LastQuery := newYear + 100000000000 }

/-- A persisted record, last queried at `newYear`. -/
def exampleRecord : DNSRecord :=
  { Name := "example.com.", Typ := "A", Value := "93.184.216.34", TTL := 3600,
    LastQuery := newYear }

/-- A snapshot with the one record `exampleRecord`. -/
def exampleSnapshot : Records := { Records := [exampleRecord] }

/-- A response with the given authoritative flag and one answer. -/
def exampleMsg (authoritative : Bool) (ttl : Uint32) : Msg :=
  { MsgHdr := { Authoritative := authoritative }, Answer := [exampleRR ttl] }

/-! ## Lemmas on the floating point conversion -/

theorem roundHalfEven_intCast (n : ℤ) : roundHalfEven (n : ℚ) = n := by
  simp [roundHalfEven]

theorem floor_le_roundHalfEven (y : ℚ) : ⌊y⌋ ≤ roundHalfEven y := by
  unfold roundHalfEven
  split_ifs <;> omega

theorem roundHalfEven_le (y : ℚ) : (roundHalfEven y : ℚ) ≤ y + 1 / 2 := by
  unfold roundHalfEven
  have hf := Int.floor_le y
  split_ifs with h1 h2 h3
  · linarith
  · push_cast; linarith
  · linarith
  · push_cast; linarith

theorem two_zpow_pos (e : ℤ) : (0 : ℚ) < 2 ^ e := zpow_pos (by norm_num) e

/-- The rounding error is at most half a unit in the last place. -/
theorem roundFloat64Pos_le (x : ℚ) (n : ℤ) (hx : 0 < x) (hn : x < 2 ^ (n + 1)) :
    roundFloat64Pos x ≤ x + 2 ^ (n - 52) / 2 := by
  have hlog : Int.log 2 x < n + 1 := by
    have := (Int.lt_zpow_iff_log_lt (b := 2) (by norm_num) hx (x := n + 1)).mp (by simpa using hn)
    exact this
  have hE := two_zpow_pos (Int.log 2 x - 52)
  have hmono : (2 : ℚ) ^ (Int.log 2 x - 52) ≤ 2 ^ (n - 52) :=
    zpow_le_zpow_right₀ (by norm_num) (by omega)
  have hr := roundHalfEven_le (x / 2 ^ (Int.log 2 x - 52))
  unfold roundFloat64Pos
  calc (roundHalfEven (x / 2 ^ (Int.log 2 x - 52)) : ℚ) * 2 ^ (Int.log 2 x - 52)
      ≤ (x / 2 ^ (Int.log 2 x - 52) + 1 / 2) * 2 ^ (Int.log 2 x - 52) :=
        mul_le_mul_of_nonneg_right hr hE.le
    _ = x + 2 ^ (Int.log 2 x - 52) / 2 := by field_simp; ring
    _ ≤ x + 2 ^ (n - 52) / 2 := by linarith

/-- Rounding does not cross an integer that is itself representable near `x`. -/
theorem le_roundFloat64Pos (x : ℚ) (s : ℤ) (hlog : Int.log 2 x ≤ 52)
    (hs : (s : ℚ) ≤ x) : (s : ℚ) ≤ roundFloat64Pos x := by
  obtain ⟨m, hm⟩ : ∃ m : ℕ, Int.log 2 x - 52 = -(m : ℤ) := ⟨(52 - Int.log 2 x).toNat, by omega⟩
  unfold roundFloat64Pos
  rw [hm, zpow_neg, zpow_natCast, div_inv_eq_mul]
  have hP : (0 : ℚ) < 2 ^ m := pow_pos (by norm_num) m
  have h1 : ((s * 2 ^ m : ℤ) : ℚ) ≤ x * 2 ^ m := by
    push_cast
    exact mul_le_mul_of_nonneg_right hs hP.le
  have h2 : s * 2 ^ m ≤ roundHalfEven (x * 2 ^ m) :=
    le_trans (Int.le_floor.mpr h1) (floor_le_roundHalfEven _)
  have h3 : ((s * 2 ^ m : ℤ) : ℚ) ≤ (roundHalfEven (x * 2 ^ m) : ℚ) := by exact_mod_cast h2
  rw [le_mul_inv_iff₀ hP]
  push_cast at h3
  exact h3

theorem log_le_of_lt_two_pow (x : ℚ) (n : ℤ) (hx : 0 < x) (hn : x < 2 ^ (n + 1)) :
    Int.log 2 x ≤ n := by
  have := (Int.lt_zpow_iff_log_lt (b := 2) (by norm_num) hx (x := n + 1)).mp (by simpa using hn)
  omega

/-- An integer below `2 ^ 53` is a `float64`. -/
theorem roundFloat64_intCast (n : ℤ) (h0 : 0 ≤ n) (h1 : n < 9007199254740992) :
    roundFloat64 (n : ℚ) = n := by
  unfold roundFloat64
  by_cases hz : (n : ℚ) = 0
  · rw [if_pos hz, hz]
  · have hpos : (0 : ℚ) < n := lt_of_le_of_ne (by exact_mod_cast h0) (Ne.symm hz)
    rw [if_neg hz, if_pos hpos]
    have hlt : (n : ℚ) < 2 ^ ((52 : ℤ) + 1) := by
      have : (n : ℚ) < 9007199254740992 := by exact_mod_cast h1
      norm_num
      exact this
    have hlog := log_le_of_lt_two_pow (n : ℚ) 52 hpos hlt
    obtain ⟨m, hm⟩ : ∃ m : ℕ, Int.log 2 (n : ℚ) - 52 = -(m : ℤ) :=
      ⟨(52 - Int.log 2 (n : ℚ)).toNat, by omega⟩
    unfold roundFloat64Pos
    rw [hm, zpow_neg, zpow_natCast, div_inv_eq_mul]
    have hP : (0 : ℚ) < 2 ^ m := pow_pos (by norm_num) m
    have hcast : (n : ℚ) * 2 ^ m = ((n * 2 ^ m : ℤ) : ℚ) := by push_cast; ring
    rw [hcast, roundHalfEven_intCast]
    push_cast
    field_simp

theorem roundFloat64_nonneg (x : ℚ) (hx : 0 ≤ x) : 0 ≤ roundFloat64 x := by
  unfold roundFloat64
  by_cases hz : x = 0
  · rw [if_pos hz]
  · have hpos : 0 < x := lt_of_le_of_ne hx (Ne.symm hz)
    rw [if_neg hz, if_pos hpos]
    unfold roundFloat64Pos
    have hE := two_zpow_pos (Int.log 2 x - 52)
    have h1 : 0 ≤ ⌊x / 2 ^ (Int.log 2 x - 52)⌋ := Int.floor_nonneg.mpr (div_pos hpos hE).le
    have h2 := le_trans h1 (floor_le_roundHalfEven _)
    have h3 : (0 : ℚ) ≤ (roundHalfEven (x / 2 ^ (Int.log 2 x - 52)) : ℚ) := by exact_mod_cast h2
    exact mul_nonneg h3 hE.le

/-- The quotient `float64(nsec)/1e9` stays below one by more than `2 ^ (-30) + 2 ^ (-31)`. -/
theorem roundFloat64_fraction (r : ℤ) (h0 : 0 ≤ r) (h1 : r < 1000000000) :
    0 ≤ roundFloat64 ((r : ℚ) / 1000000000) ∧
      roundFloat64 ((r : ℚ) / 1000000000) ≤ (r : ℚ) / 1000000000 + 2 ^ (-54 : ℤ) := by
  have hr0 : (0 : ℚ) ≤ r := by exact_mod_cast h0
  have hr1 : (r : ℚ) < 1000000000 := by exact_mod_cast h1
  have hq0 : (0 : ℚ) ≤ (r : ℚ) / 1000000000 := div_nonneg hr0 (by norm_num)
  refine ⟨roundFloat64_nonneg _ hq0, ?_⟩
  unfold roundFloat64
  by_cases hz : (r : ℚ) / 1000000000 = 0
  · rw [if_pos hz, hz]
    have := two_zpow_pos (-54)
    linarith
  · have hpos : 0 < (r : ℚ) / 1000000000 := lt_of_le_of_ne hq0 (Ne.symm hz)
    rw [if_neg hz, if_pos hpos]
    have hlt : (r : ℚ) / 1000000000 < 2 ^ ((-1 : ℤ) + 1) := by
      rw [div_lt_iff₀ (by norm_num)]
      norm_num
      exact hr1
    have := roundFloat64Pos_le _ (-1) hpos hlt
    have he : (2 : ℚ) ^ ((-1 : ℤ) - 52) / 2 = 2 ^ (-54 : ℤ) := by norm_num
    rw [he] at this
    exact this

/-- Below `2 ^ 24` seconds the sum `float64(sec) + float64(nsec)/1e9` does not reach the next
whole second. -/
theorem seconds_sum_bounds (s r : ℤ) (hs0 : 0 ≤ s) (hs1 : s < 16777216) (hr0 : 0 ≤ r)
    (hr1 : r < 1000000000) :
    (s : ℚ) ≤ roundFloat64 (roundFloat64 (s : ℚ) + roundFloat64 (roundFloat64 (r : ℚ) / 1000000000)) ∧
      roundFloat64 (roundFloat64 (s : ℚ) + roundFloat64 (roundFloat64 (r : ℚ) / 1000000000))
        < (s : ℚ) + 1 := by
  rw [roundFloat64_intCast s hs0 (by omega), roundFloat64_intCast r hr0 (by omega)]
  obtain ⟨hq0, hq1⟩ := roundFloat64_fraction r hr0 hr1
  generalize roundFloat64 ((r : ℚ) / 1000000000) = q at hq0 hq1
  have hsq : (0 : ℚ) ≤ s := by exact_mod_cast hs0
  have hsq1 : (s : ℚ) + 1 ≤ 16777216 := by exact_mod_cast (by omega : s + 1 ≤ 16777216)
  have hrq : (r : ℚ) ≤ 999999999 := by exact_mod_cast (by omega : r ≤ 999999999)
  have hqlt : q ≤ 999999999 / 1000000000 + 2 ^ (-54 : ℤ) := by
    have : (r : ℚ) / 1000000000 ≤ 999999999 / 1000000000 :=
      div_le_div_of_nonneg_right hrq (by norm_num)
    linarith
  have hgap : (999999999 : ℚ) / 1000000000 + 2 ^ (-54 : ℤ) + 2 ^ (-30 : ℤ) < 1 := by norm_num
  unfold roundFloat64
  by_cases hz : (s : ℚ) + q = 0
  · rw [if_pos hz]
    have : (s : ℚ) = 0 := by linarith
    rw [this]
    norm_num
  · have hpos : 0 < (s : ℚ) + q := lt_of_le_of_ne (add_nonneg hsq hq0) (Ne.symm hz)
    rw [if_neg hz, if_pos hpos]
    have hlt : (s : ℚ) + q < 2 ^ ((23 : ℤ) + 1) := by
      norm_num
      linarith
    constructor
    · apply le_roundFloat64Pos
      · have := log_le_of_lt_two_pow _ 23 hpos hlt
        omega
      · linarith
    · have hup := roundFloat64Pos_le _ 23 hpos hlt
      have he : (2 : ℚ) ^ ((23 : ℤ) - 52) / 2 = 2 ^ (-30 : ℤ) := by norm_num
      rw [he] at hup
      generalize (2 : ℚ) ^ (-54 : ℤ) = A at hq1 hqlt hgap
      generalize (2 : ℚ) ^ (-30 : ℤ) = B at hup hgap
      linarith

/-- Below `2 ^ 24` seconds, `uint32(d.Seconds())` is the number of whole seconds of a
non-negative duration. -/
theorem uint32_seconds (d : ℤ) (h0 : 0 ≤ d) (h1 : d < 16777216 * 1000000000) :
    ((uint32OfFloat64 (Duration.Seconds d)).val : ℤ) = d / 1000000000 := by
  have hs0 : 0 ≤ d / 1000000000 := Int.ediv_nonneg h0 (by norm_num)
  have hs1 : d / 1000000000 < 16777216 := by omega
  have hr0 : 0 ≤ d % 1000000000 := Int.emod_nonneg d (by norm_num)
  have hr1 : d % 1000000000 < 1000000000 := Int.emod_lt_of_pos d (by norm_num)
  obtain ⟨hlo, hhi⟩ := seconds_sum_bounds (d / 1000000000) (d % 1000000000) hs0 hs1 hr0 hr1
  have hS : Duration.Seconds d = roundFloat64 (roundFloat64 ((d / 1000000000 : ℤ) : ℚ)
      + roundFloat64 (roundFloat64 ((d % 1000000000 : ℤ) : ℚ) / 1000000000)) := by
    unfold Duration.Seconds Second
    rw [Int.tdiv_eq_ediv h0 (by norm_num), Int.tmod_eq_emod h0 (by norm_num)]
  rw [hS]
  generalize roundFloat64 (roundFloat64 ((d / 1000000000 : ℤ) : ℚ)
      + roundFloat64 (roundFloat64 ((d % 1000000000 : ℤ) : ℚ) / 1000000000)) = f at hlo hhi
  have hf0 : 0 ≤ f := le_trans (by exact_mod_cast hs0) hlo
  have hfloor : ⌊f⌋ = d / 1000000000 := Int.floor_eq_iff.mpr ⟨hlo, hhi⟩
  unfold uint32OfFloat64
  rw [if_pos hf0, hfloor]
  simp only [Fin.ofNat, Fin.val_mk]
  omega

theorem log_eq_of_bounds (x : ℚ) (k : ℤ) (h1 : 2 ^ k ≤ x) (h2 : x < 2 ^ (k + 1)) :
    Int.log 2 x = k := by
  have hx : 0 < x := lt_of_lt_of_le (two_zpow_pos k) h1
  have hle : k ≤ Int.log 2 x :=
    (Int.zpow_le_iff_le_log (b := 2) (by norm_num) hx).mp (by simpa using h1)
  have hlt := log_le_of_lt_two_pow x k hx h2
  omega

theorem roundHalfEven_up (y : ℚ) (f : ℤ) (h1 : (f : ℚ) + 1 / 2 < y) (h2 : y < (f : ℚ) + 1) :
    roundHalfEven y = f + 1 := by
  have hf : ⌊y⌋ = f := Int.floor_eq_iff.mpr ⟨by linarith, h2⟩
  unfold roundHalfEven
  rw [hf, if_neg (by linarith), if_pos (by linarith)]

theorem roundFloat64Pos_up (x : ℚ) (k f : ℤ) (h1 : 2 ^ k ≤ x) (h2 : x < 2 ^ (k + 1))
    (h3 : (f : ℚ) + 1 / 2 < x / 2 ^ (k - 52)) (h4 : x / 2 ^ (k - 52) < (f : ℚ) + 1) :
    roundFloat64Pos x = ((f + 1 : ℤ) : ℚ) * 2 ^ (k - 52) := by
  unfold roundFloat64Pos
  rw [log_eq_of_bounds x k h1 h2, roundHalfEven_up _ f h3 h4]

/-- From `2 ^ 24` seconds on, the sum `float64(sec) + float64(nsec)/1e9` can reach the next
whole second: 16777216.999999999 s is converted to 16777217. -/
theorem seconds_late_example :
    Duration.Seconds (16777216 * 1000000000 + 999999999) = 16777217 := by
  have hd : Int.tdiv (16777216 * 1000000000 + 999999999) 1000000000 = 16777216 := by decide
  have hm : Int.tmod (16777216 * 1000000000 + 999999999) 1000000000 = 999999999 := by decide
  have hq : roundFloat64 ((999999999 : ℚ) / 1000000000) = 9007199245733793 / 9007199254740992 := by
    unfold roundFloat64
    rw [if_neg (by norm_num), if_pos (by norm_num)]
    rw [roundFloat64Pos_up _ (-1) 9007199245733792 (by norm_num) (by norm_num) (by norm_num)
      (by norm_num)]
    norm_num
  unfold Duration.Seconds Second
  rw [hd, hm]
  rw [roundFloat64_intCast 16777216 (by norm_num) (by norm_num),
    roundFloat64_intCast 999999999 (by norm_num) (by norm_num)]
  simp only [Int.cast_ofNat]
  rw [hq]
  unfold roundFloat64
  rw [if_neg (by norm_num), if_pos (by norm_num)]
  rw [roundFloat64Pos_up _ 24 4503599895805951 (by norm_num) (by norm_num) (by norm_num)
    (by norm_num)]
  norm_num

/-- For an entry that expires 16777216.999999999 s after its insertion, `saveCacheRecords`
writes ttl 16777217. -/
theorem saved_ttl_late_example :
    uint32OfFloat64 (Duration.Seconds (Time.Sub (16777216 * 1000000000 + 999999999) 0))
      = 16777217 := by
  have hsub : Time.Sub (16777216 * 1000000000 + 999999999) 0
      = 16777216 * 1000000000 + 999999999 := by decide
  rw [hsub, seconds_late_example]
  unfold uint32OfFloat64
  rw [if_pos (by norm_num)]
  have hfloor : ⌊(16777217 : ℚ)⌋ = 16777217 := by
    exact_mod_cast Int.floor_intCast (16777217 : ℤ)
  rw [hfloor]
  rfl

/-! ## Lemmas on the cache operations -/

theorem ofTTL_eq (ttl : Uint32) : Duration.ofTTL ttl = (ttl.val : Int) * 1000000000 := by
  have h := ttl.isLt
  have h1 : ((ttl.val : Int) + 9223372036854775808) % 18446744073709551616
      - 9223372036854775808 = (ttl.val : Int) := by omega
  have h2 : 0 ≤ (ttl.val : Int) * 1000000000 + 9223372036854775808 := by omega
  have h3 : (ttl.val : Int) * 1000000000 + 9223372036854775808 < 18446744073709551616 := by omega
  unfold Duration.ofTTL int64 Second
  rw [h1, Int.emod_eq_of_lt h2 h3]
  ring

theorem candidate_key (env : Env) (now : NowReadings) (record : RR) :
    (addToCache.candidate env now record).key = upsertKey env record := rfl

theorem find_cond_iff (a b : CacheRecord) :
    (a.DNSRecord.Name = b.DNSRecord.Name ∧ a.DNSRecord.Typ = b.DNSRecord.Typ ∧
      a.DNSRecord.Value = b.DNSRecord.Value) ↔ a.key = b.key := by
  simp [CacheRecord.key, Prod.ext_iff]

theorem find_absent (c : CacheRecord) (l : List CacheRecord) (i : Nat)
    (h : ∀ r ∈ l, r.key ≠ c.key) : addToCache.find c i l = -1 := by
  induction l generalizing i with
  | nil => rfl
  | cons x xs ih =>
    have hx : x.key ≠ c.key := h x (List.mem_cons_self _ _)
    have hc := (find_cond_iff x c).not.mpr hx
    rw [addToCache.find, if_neg hc]
    exact ih (i + 1) (fun r hr => h r (List.mem_cons_of_mem _ hr))

theorem find_present (c : CacheRecord) (l : List CacheRecord) (i k : Nat) (x : CacheRecord)
    (hk : l[k]? = some x) (hkey : x.key = c.key)
    (hfirst : ∀ j r, j < k → l[j]? = some r → r.key ≠ c.key) :
    addToCache.find c i l = ((i + k : Nat) : Int) := by
  induction l generalizing i k with
  | nil => simp at hk
  | cons y ys ih =>
    cases k with
    | zero =>
      simp at hk
      subst hk
      rw [addToCache.find, if_pos ((find_cond_iff y c).mpr hkey)]
      simp
    | succ k =>
      have hy : y.key ≠ c.key := hfirst 0 y (Nat.succ_pos k) (by simp)
      rw [addToCache.find, if_neg ((find_cond_iff y c).not.mpr hy)]
      have := ih (i + 1) k (by simpa using hk)
        (fun j r hj hr => hfirst (j + 1) r (Nat.succ_lt_succ hj) (by simpa using hr))
      rw [this]
      congr 1
      omega

theorem addToCache_absent (env : Env) (now : NowReadings) (cacheRecords : List CacheRecord)
    (record : RR) (henabled : env.dnsServerSettings.CacheRecords = true)
    (habsent : ∀ r ∈ cacheRecords, r.key ≠ upsertKey env record) :
    addToCache env now cacheRecords record =
      (cacheRecords ++ [appended env now record],
        some (saveCacheRecords (cacheRecords ++ [appended env now record]))) := by
  have hfind := find_absent (addToCache.candidate env now record) cacheRecords 0
    (by simpa [candidate_key] using habsent)
  have happ : ({ addToCache.candidate env now record with LastQuery := now.forLastQuery }
      : CacheRecord) = appended env now record := by
    simp [addToCache.candidate, appended, Time.Add, ofTTL_eq]
  simp only [addToCache, henabled, hfind, happ]
  simp

theorem addToCache_present (env : Env) (now : NowReadings) (cacheRecords : List CacheRecord)
    (record : RR) (k : Nat) (existing : CacheRecord)
    (henabled : env.dnsServerSettings.CacheRecords = true)
    (hk : cacheRecords[k]? = some existing) (hkey : existing.key = upsertKey env record)
    (hfirst : ∀ j r, j < k → cacheRecords[j]? = some r → r.key ≠ upsertKey env record) :
    addToCache env now cacheRecords record =
      (cacheRecords.set k (refreshed now record existing),
        some (saveCacheRecords (cacheRecords.set k (refreshed now record existing)))) := by
  have hfind := find_present (addToCache.candidate env now record) cacheRecords 0 k existing hk
    (by simpa [candidate_key] using hkey) (by simpa [candidate_key] using hfirst)
  have hne : ((0 + k : Nat) : Int) ≠ -1 := by omega
  have hnat : ((0 + k : Nat) : Int).toNat = k := by simp
  have hupd : ({ existing with
      DNSRecord := { existing.DNSRecord with TTL := (addToCache.candidate env now record).DNSRecord.TTL }
      Expiry := (addToCache.candidate env now record).Expiry
      LastQuery := now.forLastQuery } : CacheRecord) = refreshed now record existing := by
    simp [addToCache.candidate, refreshed, Time.Add, ofTTL_eq]
  simp only [addToCache, henabled, hfind, hnat, hk, hupd]
  simp [hne]

/-- Every collection either holds the key, with a first position, or does not hold it. -/
theorem first_position (key : String × String × String) (l : List CacheRecord) :
    (∀ r ∈ l, r.key ≠ key) ∨
      ∃ (k : Nat) (existing : CacheRecord), l[k]? = some existing ∧ existing.key = key ∧
        ∀ (j : Nat) (r : CacheRecord), j < k → l[j]? = some r → r.key ≠ key := by
  induction l with
  | nil => left; simp
  | cons x xs ih =>
    by_cases hx : x.key = key
    · right
      exact ⟨0, x, List.getElem?_cons_zero, hx, fun j r hj _ => absurd hj (Nat.not_lt_zero j)⟩
    · rcases ih with h | ⟨k, e, hk, he, hf⟩
      · left
        intro r hr
        rcases List.mem_cons.mp hr with rfl | h'
        · exact hx
        · exact h r h'
      · right
        refine ⟨k + 1, e, by rw [List.getElem?_cons_succ]; exact hk, he, ?_⟩
        intro j r hj hr
        cases j with
        | zero => simp at hr; subst hr; exact hx
        | succ j => exact hf j r (Nat.lt_of_succ_lt_succ hj) (by simpa using hr)

theorem refreshed_key (now : NowReadings) (record : RR) (existing : CacheRecord) :
    (refreshed now record existing).key = existing.key := rfl

theorem keyUnique_iff (l : List CacheRecord) : KeyUnique l ↔ (l.map CacheRecord.key).Nodup := by
  rw [List.nodup_iff_getElem?_ne_getElem?]
  constructor
  · intro h i j hij hj
    have hj' : j < l.length := by simpa using hj
    have hi' : i < l.length := lt_trans hij hj'
    rw [List.getElem?_map, List.getElem?_map, List.getElem?_eq_getElem hi',
      List.getElem?_eq_getElem hj']
    simp only [Option.map_some', ne_eq, Option.some.injEq]
    exact h i j l[i] l[j] (List.getElem?_eq_getElem hi') (List.getElem?_eq_getElem hj')
      (Nat.ne_of_lt hij)
  · intro h i j a b ha hb hij hkey
    have hi' : i < l.length := (List.getElem?_eq_some.mp ha).1
    have hj' : j < l.length := (List.getElem?_eq_some.mp hb).1
    rcases Nat.lt_or_gt_of_ne hij with hlt | hgt
    · apply h i j hlt (by simpa using hj')
      rw [List.getElem?_map, List.getElem?_map, ha, hb]
      simp [hkey]
    · apply h j i hgt (by simpa using hi')
      rw [List.getElem?_map, List.getElem?_map, ha, hb]
      simp [hkey]

theorem map_key_set (l : List CacheRecord) (k : Nat) (existing new : CacheRecord)
    (hk : l[k]? = some existing) (hkey : new.key = existing.key) :
    (l.set k new).map CacheRecord.key = l.map CacheRecord.key := by
  apply List.ext_getElem?
  intro n
  rw [List.getElem?_map, List.getElem?_map, List.getElem?_set]
  by_cases hn : k = n
  · subst hn
    have hlt : k < l.length := (List.getElem?_eq_some.mp hk).1
    simp [hlt, hk, hkey]
  · simp [hn]

theorem keyUnique_addToCache (env : Env) (now : NowReadings) (cacheRecords : List CacheRecord)
    (record : RR) (h : KeyUnique cacheRecords) :
    KeyUnique (addToCache env now cacheRecords record).1 := by
  by_cases henabled : env.dnsServerSettings.CacheRecords = true
  · rcases first_position (upsertKey env record) cacheRecords with habsent | ⟨k, e, hk, he, hf⟩
    · rw [addToCache_absent env now cacheRecords record henabled habsent]
      rw [keyUnique_iff] at h ⊢
      rw [List.map_append, List.nodup_append]
      refine ⟨h, List.nodup_singleton _, ?_⟩
      intro x hx hx'
      rcases List.mem_map.mp hx with ⟨r, hr, rfl⟩
      simp only [List.map_cons, List.map_nil, List.mem_singleton] at hx'
      exact habsent r hr hx'
    · rw [addToCache_present env now cacheRecords record k e henabled hk he hf]
      rw [keyUnique_iff] at h ⊢
      rw [map_key_set cacheRecords k e _ hk (refreshed_key now record e)]
      exact h
  · have hoff : env.dnsServerSettings.CacheRecords = false := by simpa using henabled
    simpa [addToCache, hoff] using h

theorem loop_scan (answers : List Msg) :
    (∀ (pre post : List Msg) (a : Msg), answers = pre ++ a :: post →
        (∀ m ∈ pre, m.MsgHdr.Authoritative = false) → a.MsgHdr.Authoritative = true →
        handleDNSServers.loop answers = (true, [Call.processAuthoritativeAnswer a])) ∧
      ((∀ m ∈ answers, m.MsgHdr.Authoritative = false) →
        handleDNSServers.loop answers = (false, [])) := by
  induction answers with
  | nil =>
    refine ⟨?_, fun _ => rfl⟩
    intro pre post a h
    simp at h
  | cons x xs ih =>
    constructor
    · intro pre post a h hpre ha
      cases pre with
      | nil =>
        simp only [List.nil_append, List.cons.injEq] at h
        obtain ⟨rfl, -⟩ := h
        simp [handleDNSServers.loop, ha]
      | cons p ps =>
        simp only [List.cons_append, List.cons.injEq] at h
        obtain ⟨rfl, hxs⟩ := h
        have hx : x.MsgHdr.Authoritative = false := hpre x (List.mem_cons_self _ _)
        simp only [handleDNSServers.loop, hx]
        exact ih.1 ps post a hxs (fun m hm => hpre m (List.mem_cons_of_mem _ hm)) ha
    · intro hall
      have hx : x.MsgHdr.Authoritative = false := hall x (List.mem_cons_self _ _)
      simp only [handleDNSServers.loop, hx]
      exact ih.2 (fun m hm => hall m (List.mem_cons_of_mem _ hm))

/-- A stream with an authoritative answer splits at the first one. -/
theorem split_first_authoritative (answers : List Msg)
    (h : ¬ ∀ m ∈ answers, m.MsgHdr.Authoritative = false) :
    ∃ (pre post : List Msg) (a : Msg), answers = pre ++ a :: post ∧
      (∀ m ∈ pre, m.MsgHdr.Authoritative = false) ∧ a.MsgHdr.Authoritative = true := by
  induction answers with
  | nil => simp at h
  | cons x xs ih =>
    by_cases hx : x.MsgHdr.Authoritative = true
    · exact ⟨[], xs, x, rfl, by simp, hx⟩
    · have hx' : x.MsgHdr.Authoritative = false := by simpa using hx
      have hxs : ¬ ∀ m ∈ xs, m.MsgHdr.Authoritative = false := by
        intro hall
        apply h
        intro m hm
        rcases List.mem_cons.mp hm with rfl | hm'
        · exact hx'
        · exact hall m hm'
      obtain ⟨pre, post, a, rfl, hpre, ha⟩ := ih hxs
      refine ⟨x :: pre, post, a, rfl, ?_, ha⟩
      intro m hm
      rcases List.mem_cons.mp hm with rfl | hm'
      · exact hx'
      · exact hpre m hm'


theorem sub_of_range (t u : Int) (h0 : 0 ≤ t - u) (h1 : t - u < 16777216 * 1000000000) :
    Time.Sub t u = t - u := by
  have hmin : ¬ (t - u < (-9223372036854775808 : Int)) := by omega
  have hmax : ¬ ((9223372036854775807 : Int) < t - u) := by omega
  unfold Time.Sub minDuration maxDuration
  rw [if_neg hmin, if_neg hmax]

/-- The ttl that `saveCacheRecords` writes for an entry, as a number. -/
theorem saved_ttl (t u : Int) (n : Uint32) (h0 : 0 ≤ t - u)
    (h1 : t - u < 16777216 * 1000000000) (hn : (n.val : Int) = (t - u) / 1000000000) :
    uint32OfFloat64 (Duration.Seconds (Time.Sub t u)) = n := by
  rw [sub_of_range t u h0 h1]
  have h := uint32_seconds (t - u) h0 h1
  rw [← hn] at h
  exact Fin.ext (by exact_mod_cast h)

theorem loop_records (now : Nat → Time) (i : Nat) (l : List DNSRecord) :
    (getCacheRecords.loop now i l).map (fun e => e.DNSRecord) = l ∧
      (getCacheRecords.loop now i l).map (fun e => e.Expiry) =
        l.map (fun r => r.LastQuery + (r.TTL.val : Int) * 1000000000) ∧
      (getCacheRecords.loop now i l).map (fun e => e.Timestamp) =
        (List.range l.length).map (fun j => now (i + j)) := by
  induction l generalizing i with
  | nil => exact ⟨rfl, rfl, rfl⟩
  | cons r rs ih =>
    obtain ⟨h1, h2, h3⟩ := ih (i + 1)
    refine ⟨?_, ?_, ?_⟩
    · simp [getCacheRecords.loop, h1]
    · simp [getCacheRecords.loop, h2, Time.Add, ofTTL_eq]
    · simp only [getCacheRecords.loop, List.map_cons, h3, List.length_cons, List.range_succ_eq_map,
        List.map_map]
      simp [Function.comp_def, Nat.add_assoc, Nat.add_comm 1]

theorem loop_getElem (now : Nat → Time) (i j : Nat) (l : List DNSRecord) :
    (getCacheRecords.loop now i l)[j]? = (l[j]?).map (fun r =>
      ({ DNSRecord := r
         Timestamp := now (i + j)
         Expiry := r.LastQuery + (r.TTL.val : Int) * 1000000000
         LastQuery := 0 } : CacheRecord)) := by
  induction l generalizing i j with
  | nil => simp [getCacheRecords.loop]
  | cons r rs ih =>
    cases j with
    | zero => simp [getCacheRecords.loop, Time.Add, ofTTL_eq]
    | succ j =>
      simp only [getCacheRecords.loop, List.getElem?_cons_succ]
      rw [ih (i + 1) j]
      congr 2
      funext r
      congr 2
      omega

theorem save_getElem (cacheRecords : List CacheRecord) (i : Nat) :
    (saveCacheRecords cacheRecords).Records[i]? = (cacheRecords[i]?).map (fun e =>
      ({ Name := e.DNSRecord.Name
         Typ := e.DNSRecord.Typ
         Value := e.DNSRecord.Value
         TTL := uint32OfFloat64 (Duration.Seconds (Time.Sub e.Expiry e.Timestamp))
         LastQuery := e.LastQuery } : DNSRecord)) := by
  simp only [saveCacheRecords, List.getElem?_map]

theorem save_keys (cacheRecords : List CacheRecord) :
    (saveCacheRecords cacheRecords).Records.map (fun r => (r.Name, r.Typ, r.Value)) =
      cacheRecords.map CacheRecord.key := by
  simp [saveCacheRecords, CacheRecord.key, Function.comp_def]

theorem loop_keys (now : Nat → Time) (i : Nat) (l : List DNSRecord) :
    (getCacheRecords.loop now i l).map CacheRecord.key =
      l.map (fun r => (r.Name, r.Typ, r.Value)) := by
  have h := (loop_records now i l).1
  have h2 : (getCacheRecords.loop now i l).map CacheRecord.key =
      ((getCacheRecords.loop now i l).map (fun e => e.DNSRecord)).map
        (fun r => (r.Name, r.Typ, r.Value)) := by
    simp [CacheRecord.key, Function.comp_def]
  rw [h2, h]

theorem roundFloat64_zero : roundFloat64 0 = 0 := by
  simp [roundFloat64]

/-- A whole number of seconds is converted exactly. -/
theorem seconds_whole (n : Int) (h0 : 0 ≤ n) (h1 : n < 9007199254740992) :
    Duration.Seconds (n * 1000000000) = (n : ℚ) := by
  have hd : Int.tdiv (n * 1000000000) 1000000000 = n := by
    rw [Int.tdiv_eq_ediv (by omega) (by norm_num)]
    omega
  have hm : Int.tmod (n * 1000000000) 1000000000 = 0 := by
    rw [Int.tmod_eq_emod (by omega) (by norm_num)]
    omega
  unfold Duration.Seconds Second
  rw [hd, hm]
  simp only [Int.cast_zero, roundFloat64_zero, zero_div, add_zero]
  rw [roundFloat64_intCast n h0 h1, roundFloat64_intCast n h0 h1]

/-- When `expires_at - inserted_at` is exactly ttl seconds, `saveCacheRecords` writes ttl. -/
theorem saved_ttl_whole (t : Int) (ttl : Uint32) :
    uint32OfFloat64 (Duration.Seconds (Time.Sub (t + (ttl.val : Int) * 1000000000) t)) = ttl := by
  have hlt := ttl.isLt
  have hsub : Time.Sub (t + (ttl.val : Int) * 1000000000) t = (ttl.val : Int) * 1000000000 := by
    have hmin : ¬ (t + (ttl.val : Int) * 1000000000 - t < (-9223372036854775808 : Int)) := by
      omega
    have hmax : ¬ ((9223372036854775807 : Int) < t + (ttl.val : Int) * 1000000000 - t) := by
      omega
    unfold Time.Sub minDuration maxDuration
    rw [if_neg hmin, if_neg hmax]
    ring
  rw [hsub, seconds_whole _ (by omega) (by omega)]
  unfold uint32OfFloat64
  have hnn : (0 : ℚ) ≤ ((ttl.val : Int) : ℚ) := by exact_mod_cast Int.natCast_nonneg ttl.val
  rw [if_pos hnn, Int.floor_intCast]
  apply Fin.ext
  simp only [Fin.ofNat, Fin.val_mk]
  omega

/-- The append path persists the ttl of the record when the clock does not advance between
the reading for `Expiry` and the reading for `Timestamp`. -/
theorem append_persists_ttl (env : Env) (now : NowReadings) (cacheRecords : List CacheRecord)
    (record : RR) (henabled : env.dnsServerSettings.CacheRecords = true)
    (habsent : ∀ r ∈ cacheRecords, r.key ≠ upsertKey env record)
    (hclock : now.forTimestamp = now.forExpiry) :
    ∃ doc : Records, (addToCache env now cacheRecords record).2 = some doc ∧
      doc.Records.getLast? = some
        { Name := record.Hdr.Name
          Typ := env.TypeToString record.Hdr.Rrtype
          Value := recordValue record.Data
          TTL := record.Hdr.Ttl
          LastQuery := now.forLastQuery } := by
  rw [addToCache_absent env now cacheRecords record henabled habsent]
  refine ⟨_, rfl, ?_⟩
  simp [saveCacheRecords, appended, hclock, saved_ttl_whole]

/-- The document written for a collection of one entry. -/
theorem save_singleton (e : CacheRecord) (n : Uint32) (h0 : 0 ≤ e.Expiry - e.Timestamp)
    (h1 : e.Expiry - e.Timestamp < 16777216 * 1000000000)
    (hn : (n.val : Int) = (e.Expiry - e.Timestamp) / 1000000000) :
    saveCacheRecords [e] =
      { Records :=
          [{ Name := e.DNSRecord.Name
             Typ := e.DNSRecord.Typ
             Value := e.DNSRecord.Value
             TTL := n
             LastQuery := e.LastQuery }] } := by
  simp only [saveCacheRecords, List.map_cons, List.map_nil, saved_ttl _ _ n h0 h1 hn]

/-- With a clock that advances by 50 ns between the reading for `Expiry` and the reading for
`Timestamp`, the append path persists ttl 299 for a record with ttl 300. -/
theorem append_advancing_clock_example :
    (addToCache exampleEnv (NowReadings.mk newYear (newYear + 50) (newYear + 90)) []
        (exampleRR 300)).2 = some
      { Records :=
          [{ Name := "example.com.", Typ := "A", Value := "93.184.216.34", TTL := 299,
             LastQuery := newYear + 90 }] } := by
  rw [addToCache_absent exampleEnv (NowReadings.mk newYear (newYear + 50) (newYear + 90)) []
    (exampleRR 300) rfl (by simp)]
  show some (saveCacheRecords [appended exampleEnv
    (NowReadings.mk newYear (newYear + 50) (newYear + 90)) (exampleRR 300)]) = _
  rw [save_singleton _ 299 (by decide) (by decide) (by decide)]
  rfl

/-! ## Properties -/

/-- C1 (cache key uniqueness): from a collection without two entries of the same
`(name, type, value)` at different positions, in particular from the empty one, every finite
sequence of `addToCache` calls, whatever the records and the clock readings, ends in a
collection without two such entries. It holds for every setting of `cache_records`. -/
theorem cache_key_uniqueness (env : Env) (calls : List (NowReadings × RR))
    (start : List CacheRecord) (hstart : KeyUnique start) :
    KeyUnique (upsertAll env calls start).1 := by
  induction calls generalizing start with
  | nil => exact hstart
  | cons call calls ih =>
    obtain ⟨now, record⟩ := call
    exact ih _ (keyUnique_addToCache env now start record hstart)

/-- An instance of C1: three upserts into the empty cache, the third of the key of the first. -/
theorem cache_key_uniqueness_witness :
    KeyUnique [] ∧
      KeyUnique (upsertAll exampleEnv
        [(NowReadings.at newYear, exampleRR 3600), (NowReadings.at (newYear + 5), otherRR 60),
          (NowReadings.at (newYear + 9), exampleRR 60)] []).1 :=
  ⟨by intro i j a b ha; simp at ha,
    cache_key_uniqueness exampleEnv _ [] (by intro i j a b ha; simp at ha)⟩

/-- C2 (resolver selection): whatever the upstream servers return and in whatever order,
`handleDNSServers` hands the first authoritative answer of the stream to
`processAuthoritativeAnswer` and makes no other call, however many non-authoritative answers
precede it; it calls `handleFallbackServer` exactly once and `processAuthoritativeAnswer` not
at all if and only if no answer of the stream is authoritative; and when every upstream failed
the stream is empty and the single call is the fallback. -/
theorem handleDNSServers_selection (completions : List (Option Msg)) :
    (∀ (pre post : List Msg) (a : Msg), queryAllDNSServers completions = pre ++ a :: post →
        (∀ m ∈ pre, m.MsgHdr.Authoritative = false) → a.MsgHdr.Authoritative = true →
        handleDNSServers completions = [Call.processAuthoritativeAnswer a]) ∧
      (((handleDNSServers completions).count Call.handleFallbackServer = 1 ∧
          ∀ a, Call.processAuthoritativeAnswer a ∉ handleDNSServers completions) ↔
        ∀ m ∈ queryAllDNSServers completions, m.MsgHdr.Authoritative = false) ∧
      (∀ n : Nat, handleDNSServers (List.replicate n none) = [Call.handleFallbackServer]) := by
  have hscan := loop_scan (queryAllDNSServers completions)
  refine ⟨?_, ?_, ?_⟩
  · intro pre post a h hpre ha
    simp [handleDNSServers, hscan.1 pre post a h hpre ha]
  · constructor
    · rintro ⟨-, hnone⟩
      by_contra hex
      obtain ⟨pre, post, a, h, hpre, ha⟩ :=
        split_first_authoritative (queryAllDNSServers completions) hex
      apply hnone a
      simp [handleDNSServers, hscan.1 pre post a h hpre ha]
    · intro hall
      simp [handleDNSServers, hscan.2 hall]
  · intro n
    have hempty : queryAllDNSServers (List.replicate n none) = [] := by
      induction n with
      | zero => rfl
      | succ n _ => simp [queryAllDNSServers, List.replicate_succ]
    simp only [handleDNSServers, hempty]
    rfl

/-- An instance of C2: two non-authoritative answers and a failure precede the authoritative
one, and a second authoritative answer follows it. -/
theorem handleDNSServers_selection_witness :
    handleDNSServers [some (exampleMsg false 60), none, some (exampleMsg false 30),
        some (exampleMsg true 300), some (exampleMsg true 5)]
      = [Call.processAuthoritativeAnswer (exampleMsg true 300)] :=
  (handleDNSServers_selection [some (exampleMsg false 60), none, some (exampleMsg false 30),
      some (exampleMsg true 300), some (exampleMsg true 5)]).1
    [exampleMsg false 60, exampleMsg false 30] [exampleMsg true 5] (exampleMsg true 300)
    rfl (by decide) rfl

/-- C5 (disabled caching): with `cache_records` false, `addToCache` returns the collection it
was given and does not call `saveCacheRecords`; any number of calls leaves the collection as it
was and writes nothing to `cache.json`. -/
theorem addToCache_disabled (env : Env) (hdisabled : env.dnsServerSettings.CacheRecords = false)
    (now : NowReadings) (cacheRecords : List CacheRecord) (record : RR)
    (calls : List (NowReadings × RR)) :
    addToCache env now cacheRecords record = (cacheRecords, none) ∧
      upsertAll env calls cacheRecords = (cacheRecords, []) := by
  have hone : ∀ (now : NowReadings) (record : RR),
      addToCache env now cacheRecords record = (cacheRecords, none) := by
    intro now record
    simp [addToCache, hdisabled]
  refine ⟨hone now record, ?_⟩
  induction calls with
  | nil => rfl
  | cons call calls ih =>
    obtain ⟨now', record'⟩ := call
    simp only [upsertAll, hone now' record', ih]
    rfl

/-- An instance of C5 on a cache with one entry. -/
theorem addToCache_disabled_witness :
    disabledEnv.dnsServerSettings.CacheRecords = false ∧
      addToCache disabledEnv (NowReadings.at (newYear + 7)) [exampleEntry] (otherRR 60)
        = ([exampleEntry], none) ∧
      upsertAll disabledEnv
        [(NowReadings.at (newYear + 7), otherRR 60), (NowReadings.at (newYear + 8), exampleRR 5)]
        [exampleEntry] = ([exampleEntry], []) :=
  ⟨rfl, addToCache_disabled disabledEnv rfl (NowReadings.at (newYear + 7)) [exampleEntry]
    (otherRR 60)
    [(NowReadings.at (newYear + 7), otherRR 60), (NowReadings.at (newYear + 8), exampleRR 5)]⟩

/-- C4 (upsert of a new key appends): with caching enabled, when no entry has the name, type
and value of the record, `addToCache` returns the old collection followed by one new entry
with the name, type, value and ttl of the record, `expires_at` the clock reading plus ttl
seconds, `inserted_at` the clock reading, and `last_query` the clock reading; entries of the
same name and type with another value do not prevent it. -/
theorem addToCache_appends_new_key (env : Env) (now : NowReadings)
    (cacheRecords : List CacheRecord) (record : RR)
    (henabled : env.dnsServerSettings.CacheRecords = true)
    (habsent : ∀ r ∈ cacheRecords,
      (r.DNSRecord.Name, r.DNSRecord.Typ, r.DNSRecord.Value) ≠
        (record.Hdr.Name, env.TypeToString record.Hdr.Rrtype, recordValue record.Data)) :
    (addToCache env now cacheRecords record).1 =
      cacheRecords ++
        [{ DNSRecord :=
            { Name := record.Hdr.Name
              Typ := env.TypeToString record.Hdr.Rrtype
              Value := recordValue record.Data
              TTL := record.Hdr.Ttl
              LastQuery := 0 }
           Expiry := now.forExpiry + (record.Hdr.Ttl.val : Int) * 1000000000
           Timestamp := now.forTimestamp
           LastQuery := now.forLastQuery }] := by
  rw [addToCache_absent env now cacheRecords record henabled habsent]
  rfl

/-- An instance of C4: a second address of a cached name and type is appended. -/
theorem addToCache_appends_new_key_witness :
    (addToCache exampleEnv (NowReadings.mk (newYear + 10) (newYear + 11) (newYear + 12))
        [exampleEntry] (otherRR 60)).1 =
      [exampleEntry,
        { DNSRecord :=
            { Name := "example.com.", Typ := "A", Value := "93.184.216.35", TTL := 60,
              LastQuery := 0 }
          Expiry := newYear + 10 + 60 * 1000000000
          Timestamp := newYear + 11
          LastQuery := newYear + 12 }] :=
  addToCache_appends_new_key exampleEnv
    (NowReadings.mk (newYear + 10) (newYear + 11) (newYear + 12)) [exampleEntry] (otherRR 60) rfl
    (by decide)

/-- C3 (upsert of an existing key updates in place): with caching enabled, when the first
entry with the name, type and value of the record stands at position `k`, `addToCache` returns
a collection of the same length in which position `k` holds that entry with its name, type,
value and `inserted_at` kept, ttl the ttl of the record, `expires_at` the clock reading plus
ttl seconds and `last_query` the clock reading, and in which every other position is
unchanged. -/
theorem addToCache_updates_in_place (env : Env) (now : NowReadings)
    (cacheRecords : List CacheRecord) (record : RR) (k : Nat) (existing : CacheRecord)
    (henabled : env.dnsServerSettings.CacheRecords = true)
    (hk : cacheRecords[k]? = some existing)
    (hkey : (existing.DNSRecord.Name, existing.DNSRecord.Typ, existing.DNSRecord.Value) =
      (record.Hdr.Name, env.TypeToString record.Hdr.Rrtype, recordValue record.Data))
    (hfirst : ∀ (j : Nat) (r : CacheRecord), j < k → cacheRecords[j]? = some r →
      (r.DNSRecord.Name, r.DNSRecord.Typ, r.DNSRecord.Value) ≠
        (record.Hdr.Name, env.TypeToString record.Hdr.Rrtype, recordValue record.Data)) :
    (addToCache env now cacheRecords record).1.length = cacheRecords.length ∧
      (addToCache env now cacheRecords record).1[k]? = some
        { DNSRecord :=
            { Name := existing.DNSRecord.Name
              Typ := existing.DNSRecord.Typ
              Value := existing.DNSRecord.Value
              TTL := record.Hdr.Ttl
              LastQuery := existing.DNSRecord.LastQuery }
          Expiry := now.forExpiry + (record.Hdr.Ttl.val : Int) * 1000000000
          Timestamp := existing.Timestamp
          LastQuery := now.forLastQuery } ∧
      ∀ j : Nat, j ≠ k → (addToCache env now cacheRecords record).1[j]? = cacheRecords[j]? := by
  rw [addToCache_present env now cacheRecords record k existing henabled hk hkey hfirst]
  have hlt : k < cacheRecords.length := (List.getElem?_eq_some.mp hk).1
  refine ⟨List.length_set _ _ _, ?_, ?_⟩
  · simp only [List.getElem?_set, hlt, if_true]
    rfl
  · intro j hj
    exact List.getElem?_set_ne (Ne.symm hj)

/-- An instance of C3 with clock readings 10, 11 and 12 ns. -/
theorem addToCache_updates_in_place_witness :
    (addToCache exampleEnv (NowReadings.mk (newYear + 10) (newYear + 11) (newYear + 12))
        [exampleEntry] (exampleRR 60)).1.length = [exampleEntry].length ∧
      (addToCache exampleEnv (NowReadings.mk (newYear + 10) (newYear + 11) (newYear + 12))
        [exampleEntry] (exampleRR 60)).1[0]? = some
        { DNSRecord :=
            { Name := "example.com.", Typ := "A", Value := "93.184.216.34", TTL := 60,
              LastQuery := 0 }
          Expiry := newYear + 10 + 60 * 1000000000
          Timestamp := newYear
          LastQuery := newYear + 12 } ∧
      ∀ j : Nat, j ≠ 0 →
        (addToCache exampleEnv (NowReadings.mk (newYear + 10) (newYear + 11) (newYear + 12))
          [exampleEntry] (exampleRR 60)).1[j]? = [exampleEntry][j]? :=
  addToCache_updates_in_place exampleEnv
    (NowReadings.mk (newYear + 10) (newYear + 11) (newYear + 12)) [exampleEntry] (exampleRR 60)
    0 exampleEntry rfl rfl (by decide) (fun j _ hj => absurd hj (Nat.not_lt_zero j))

/-- C8 (load reconstructs expiry from stored data): for a snapshot that was read and parsed,
`getCacheRecords` returns one entry per persisted record, in the same order, whose record is
the persisted record and whose `expires_at` is the `last_query` of that record plus its ttl in
seconds, whatever the clock shows (the readings only go into `inserted_at`); when reading or
parsing fails it returns the error. -/
theorem getCacheRecords_expiry (records : Records) (now : Nat → Time) (err : String) :
    (∃ entries : List CacheRecord,
        getCacheRecords (CacheFile.parsed records) now = Except.ok entries ∧
        entries.map (fun e => e.DNSRecord) = records.Records ∧
        entries.map (fun e => e.Expiry) =
          records.Records.map (fun r => r.LastQuery + (r.TTL.val : Int) * 1000000000) ∧
        entries.map (fun e => e.Timestamp) =
          (List.range records.Records.length).map now) ∧
      getCacheRecords (CacheFile.unreadable err) now = Except.error err ∧
      getCacheRecords (CacheFile.malformed err) now = Except.error err := by
  obtain ⟨h1, h2, h3⟩ := loop_records now 0 records.Records
  refine ⟨⟨_, rfl, h1, h2, ?_⟩, rfl, rfl⟩
  rw [h3]
  simp

/-- C6, as stated, fails: an entry upserted at `newYear` with ttl 3600 s expires 3600 s later;
the upsert of the same key 10 s after `newYear` with ttl 60 s sets `expires_at` to
`newYear` + 70 s, which is not greater than the previous value. -/
theorem refresh_can_lower_expiry :
    (addToCache exampleEnv (NowReadings.at newYear) [] (exampleRR 3600)).1 = [exampleEntry] ∧
      (addToCache exampleEnv (NowReadings.at (newYear + 10000000000)) [exampleEntry]
          (exampleRR 60)).1 =
        [{ DNSRecord :=
            { Name := "example.com.", Typ := "A", Value := "93.184.216.34", TTL := 60,
              LastQuery := 0 }
           Expiry := newYear + 70000000000
           Timestamp := newYear
           LastQuery := newYear + 10000000000 }] ∧
      ¬ (exampleEntry.Expiry < newYear + 70000000000) := by
  refine ⟨?_, ?_, by decide⟩
  · rw [addToCache_absent exampleEnv (NowReadings.at newYear) [] (exampleRR 3600) rfl (by simp)]
    rfl
  · rw [addToCache_present exampleEnv (NowReadings.at (newYear + 10000000000)) [exampleEntry]
      (exampleRR 60) 0 exampleEntry rfl rfl (by decide)
      (fun j _ hj => absurd hj (Nat.not_lt_zero j))]
    rfl

/-- C6 (amended): with caching enabled, an upsert of a key whose first entry stands at
position `k` sets the `expires_at` of that entry to the clock reading plus ttl seconds,
whatever the previous `expires_at` was; the new value is strictly greater than the previous
one exactly when the previous one was earlier than the clock reading plus ttl seconds. -/
theorem refresh_sets_expiry (env : Env) (now : NowReadings)
    (cacheRecords : List CacheRecord) (record : RR) (k : Nat) (existing : CacheRecord)
    (henabled : env.dnsServerSettings.CacheRecords = true)
    (hk : cacheRecords[k]? = some existing)
    (hkey : (existing.DNSRecord.Name, existing.DNSRecord.Typ, existing.DNSRecord.Value) =
      (record.Hdr.Name, env.TypeToString record.Hdr.Rrtype, recordValue record.Data))
    (hfirst : ∀ (j : Nat) (r : CacheRecord), j < k → cacheRecords[j]? = some r →
      (r.DNSRecord.Name, r.DNSRecord.Typ, r.DNSRecord.Value) ≠
        (record.Hdr.Name, env.TypeToString record.Hdr.Rrtype, recordValue record.Data)) :
    ∃ updated : CacheRecord,
      (addToCache env now cacheRecords record).1[k]? = some updated ∧
      updated.Expiry = now.forExpiry + (record.Hdr.Ttl.val : Int) * 1000000000 ∧
      (existing.Expiry < updated.Expiry ↔
        existing.Expiry < now.forExpiry + (record.Hdr.Ttl.val : Int) * 1000000000) := by
  rw [addToCache_present env now cacheRecords record k existing henabled hk hkey hfirst]
  have hlt : k < cacheRecords.length := (List.getElem?_eq_some.mp hk).1
  refine ⟨refreshed now record existing, ?_, rfl, Iff.rfl⟩
  simp only [List.getElem?_set, hlt, if_true]

/-- An instance of the amended C6 at the input of `refresh_can_lower_expiry`. -/
theorem refresh_sets_expiry_witness :
    ∃ updated : CacheRecord,
      (addToCache exampleEnv (NowReadings.at (newYear + 10000000000)) [exampleEntry]
        (exampleRR 60)).1[0]? = some updated ∧
      updated.Expiry = newYear + 10000000000 + ((60 : Uint32).val : Int) * 1000000000 ∧
      (exampleEntry.Expiry < updated.Expiry ↔
        exampleEntry.Expiry
          < newYear + 10000000000 + ((60 : Uint32).val : Int) * 1000000000) :=
  refresh_sets_expiry exampleEnv (NowReadings.at (newYear + 10000000000)) [exampleEntry]
    (exampleRR 60) 0 exampleEntry rfl rfl (by decide)
    (fun j _ hj => absurd hj (Nat.not_lt_zero j))

/-- C9, as stated, fails: the entry left by two upserts of a record with ttl 1 s, 0.6 s apart,
has `expires_at - inserted_at` = 1.6 s; `saveCacheRecords` writes ttl 1 for it, and the whole
second nearest to 1.6 s is 2. -/
theorem save_discards_fraction :
    (addToCache exampleEnv (NowReadings.at (newYear + 600000000))
        (addToCache exampleEnv (NowReadings.at newYear) [] (exampleRR 1)).1 (exampleRR 1)).1
      = [fractionalEntry] ∧
    (saveCacheRecords [fractionalEntry]).Records.map (fun r => (r.TTL.val : Int)) = [1] ∧
    nearestSecond (fractionalEntry.Expiry - fractionalEntry.Timestamp) = 2 := by
  refine ⟨?_, ?_, by decide⟩
  · rw [addToCache_absent exampleEnv (NowReadings.at newYear) [] (exampleRR 1) rfl (by simp)]
    rw [addToCache_present exampleEnv (NowReadings.at (newYear + 600000000)) _ (exampleRR 1) 0
      (appended exampleEnv (NowReadings.at newYear) (exampleRR 1)) rfl rfl (by decide)
      (fun j _ hj => absurd hj (Nat.not_lt_zero j))]
    rfl
  · rw [save_singleton fractionalEntry 1 (by decide) (by decide) (by decide)]
    rfl

/-- C9 (amended): `saveCacheRecords` writes one record per cache entry, in collection order,
with the name, type and value of the entry and the `last_query` of the entry; for an entry
whose `expires_at - inserted_at` is not negative and below `2 ^ 24` seconds, the ttl written
is the number of whole seconds of that difference, the fraction being discarded (it is not
rounded to the nearest second). -/
theorem save_writes_whole_seconds (cacheRecords : List CacheRecord) :
    (saveCacheRecords cacheRecords).Records.length = cacheRecords.length ∧
      ∀ (i : Nat) (e : CacheRecord), cacheRecords[i]? = some e →
        ∃ r : DNSRecord, (saveCacheRecords cacheRecords).Records[i]? = some r ∧
          r.Name = e.DNSRecord.Name ∧ r.Typ = e.DNSRecord.Typ ∧ r.Value = e.DNSRecord.Value ∧
          r.LastQuery = e.LastQuery ∧
          (0 ≤ e.Expiry - e.Timestamp → e.Expiry - e.Timestamp < 16777216 * 1000000000 →
            (r.TTL.val : Int) = (e.Expiry - e.Timestamp) / 1000000000) := by
  refine ⟨by simp [saveCacheRecords], ?_⟩
  intro i e he
  rw [save_getElem, he]
  refine ⟨_, rfl, rfl, rfl, rfl, rfl, ?_⟩
  intro h0 h1
  show ((uint32OfFloat64 (Duration.Seconds (Time.Sub e.Expiry e.Timestamp))).val : Int) = _
  rw [sub_of_range _ _ h0 h1]
  exact uint32_seconds _ h0 h1

/-- An instance of the amended C9 on `fractionalEntry`: 1.6 s is written as ttl 1. -/
theorem save_writes_whole_seconds_witness :
    ∃ r : DNSRecord, (saveCacheRecords [fractionalEntry]).Records[0]? = some r ∧
      r.Name = "example.com." ∧ r.Typ = "A" ∧ r.Value = "93.184.216.34" ∧
      r.LastQuery = newYear + 600000000 ∧
      (r.TTL.val : Int) = (newYear + 1600000000 - newYear) / 1000000000 := by
  obtain ⟨r, hr, h1, h2, h3, h4, h5⟩ :=
    (save_writes_whole_seconds [fractionalEntry]).2 0 fractionalEntry rfl
  exact ⟨r, hr, h1, h2, h3, h4, h5 (by decide) (by decide)⟩

/-- C7, as stated, fails: a snapshot holds one record with ttl 3600 s, last queried at
`newYear`. Loaded 10 s later, the entry expires at `newYear` + 3600 s and is stamped
`newYear` + 10 s, so the save writes ttl 3590; the second load yields ttl 3590 where the first
yielded 3600. -/
theorem roundtrip_changes_ttl :
    ∃ first second : List CacheRecord,
      getCacheRecords (CacheFile.parsed exampleSnapshot) (fun _ => newYear + 10000000000)
        = Except.ok first ∧
      getCacheRecords (CacheFile.parsed (saveCacheRecords first))
        (fun _ => newYear + 20000000000) = Except.ok second ∧
      first.map CacheRecord.tuple = [("example.com.", "A", "93.184.216.34", 3600)] ∧
      second.map CacheRecord.tuple = [("example.com.", "A", "93.184.216.34", 3590)] := by
  refine ⟨_, _, rfl, rfl, rfl, ?_⟩
  show (getCacheRecords.loop (fun _ => newYear + 20000000000) 0
    (saveCacheRecords [(⟨exampleRecord, Time.Add exampleRecord.LastQuery
      (Duration.ofTTL exampleRecord.TTL), newYear + 10000000000, 0⟩ : CacheRecord)]).Records).map
    CacheRecord.tuple = _
  rw [save_singleton _ 3590 (by decide) (by decide) (by decide)]
  rfl

/-- C7 (amended): loading a parsed snapshot, saving the loaded collection and loading again
yields the same sequence of `(name, type, value)` as the first load, which is that of the
snapshot. The ttl is not carried over: for a record whose `last_query + ttl` lies not before
the clock reading of the first load and less than `2 ^ 24` seconds after it, the ttl after the
cycle is the number of whole seconds from that clock reading to `last_query + ttl`. -/
theorem roundtrip_keeps_keys (records : Records) (now now2 : Nat → Time) :
    ∃ first second : List CacheRecord,
      getCacheRecords (CacheFile.parsed records) now = Except.ok first ∧
      getCacheRecords (CacheFile.parsed (saveCacheRecords first)) now2 = Except.ok second ∧
      first.map CacheRecord.key = records.Records.map (fun r => (r.Name, r.Typ, r.Value)) ∧
      second.map CacheRecord.key = first.map CacheRecord.key ∧
      ∀ (i : Nat) (r : DNSRecord), records.Records[i]? = some r →
        0 ≤ r.LastQuery + (r.TTL.val : Int) * 1000000000 - now i →
        r.LastQuery + (r.TTL.val : Int) * 1000000000 - now i < 16777216 * 1000000000 →
        ∃ e : CacheRecord, second[i]? = some e ∧
          (e.DNSRecord.TTL.val : Int) =
            (r.LastQuery + (r.TTL.val : Int) * 1000000000 - now i) / 1000000000 := by
  refine ⟨_, _, rfl, rfl, loop_keys now 0 records.Records, ?_, ?_⟩
  · rw [loop_keys, save_keys]
  · intro i r hr h0 h1
    rw [loop_getElem, save_getElem, loop_getElem, hr]
    refine ⟨_, rfl, ?_⟩
    simp only [Nat.zero_add]
    rw [sub_of_range _ _ h0 h1]
    exact uint32_seconds _ h0 h1

/-- An instance of the amended C7 on `exampleSnapshot`, first loaded at 11 s. -/
theorem roundtrip_keeps_keys_witness :
    ∃ first second : List CacheRecord,
      getCacheRecords (CacheFile.parsed exampleSnapshot) (fun _ => newYear + 10000000000)
        = Except.ok first ∧
      getCacheRecords (CacheFile.parsed (saveCacheRecords first))
        (fun _ => newYear + 20000000000) = Except.ok second ∧
      first.map CacheRecord.key = [("example.com.", "A", "93.184.216.34")] ∧
      second.map CacheRecord.key = first.map CacheRecord.key ∧
      ∃ e : CacheRecord, second[0]? = some e ∧
        (e.DNSRecord.TTL.val : Int) =
          (newYear + ((3600 : Uint32).val : Int) * 1000000000 - (newYear + 10000000000))
            / 1000000000 := by
  obtain ⟨first, second, h1, h2, h3, h4, h5⟩ :=
    roundtrip_keeps_keys exampleSnapshot (fun _ => newYear + 10000000000)
      (fun _ => newYear + 20000000000)
  exact ⟨first, second, h1, h2, h3, h4, h5 0 exampleRecord rfl (by decide) (by decide)⟩

/-- C10, evaluated at the failing input: a record with ttl 300 s is upserted into the empty
cache at `newYear` and again 100 s later. The first call hands `saveCacheRecords` a document
with ttl 300; the second call leaves `refreshedEntry` in the cache and hands over a document
whose record has ttl 400, not 300, with `last_query` = `newYear` + 100 s; loading that
document yields an entry with ttl 400 that expires at `newYear` + 500 s, not at
`newYear` + 100 s + 300 s. -/
theorem refresh_persists_inflated_ttl :
    (addToCache exampleEnv (NowReadings.at newYear) [] (exampleRR 300)).2 = some
      { Records :=
          [{ Name := "example.com.", Typ := "A", Value := "93.184.216.34", TTL := 300,
             LastQuery := newYear }] } ∧
    addToCache exampleEnv (NowReadings.at (newYear + 100000000000))
        (addToCache exampleEnv (NowReadings.at newYear) [] (exampleRR 300)).1 (exampleRR 300) =
      ([refreshedEntry], some
        { Records :=
            [{ Name := "example.com.", Typ := "A", Value := "93.184.216.34", TTL := 400,
               LastQuery := newYear + 100000000000 }] }) ∧
    getCacheRecords (CacheFile.parsed
        { Records :=
            [{ Name := "example.com.", Typ := "A", Value := "93.184.216.34", TTL := 400,
               LastQuery := newYear + 100000000000 }] })
        (fun _ => newYear + 100000000000) = Except.ok
      [{ DNSRecord :=
          { Name := "example.com.", Typ := "A", Value := "93.184.216.34", TTL := 400,
            LastQuery := newYear + 100000000000 }
         Expiry := newYear + 500000000000
         Timestamp := newYear + 100000000000
         LastQuery := 0 }] := by
  refine ⟨?_, ?_, ?_⟩
  · rw [addToCache_absent exampleEnv (NowReadings.at newYear) [] (exampleRR 300) rfl (by simp)]
    show some (saveCacheRecords [appended exampleEnv (NowReadings.at newYear) (exampleRR 300)])
      = _
    rw [save_singleton _ 300 (by decide) (by decide) (by decide)]
    rfl
  · rw [addToCache_absent exampleEnv (NowReadings.at newYear) [] (exampleRR 300) rfl (by simp)]
    rw [addToCache_present exampleEnv (NowReadings.at (newYear + 100000000000)) _
      (exampleRR 300) 0 (appended exampleEnv (NowReadings.at newYear) (exampleRR 300)) rfl rfl
      (by decide) (fun j _ hj => absurd hj (Nat.not_lt_zero j))]
    show (([refreshedEntry], some (saveCacheRecords [refreshedEntry])) :
      List CacheRecord × Option Records) = _
    rw [save_singleton refreshedEntry 400 (by decide) (by decide) (by decide)]
    rfl
  · simp only [getCacheRecords, getCacheRecords.loop, Time.Add, ofTTL_eq]
    rfl

end DNSResolver
